import Mathlib

/-!
Verification of the eventually event bus (events.go).

The bus dispatches events to listeners registered per topic. A single
dispatcher goroutine serializes add/remove/send requests taken from one
bounded FIFO channel; we model that loop as a fold over the request list.
Go maps are modelled as functions into Option, reflect types as an
inductive type, channel identities as natural numbers, and the side
effects of one dispatcher step (values sent to listener channels, channel
closes) as explicit output lists.
-/

namespace Eventually

/-- Model of the Go reflect types used by the bus: a few concrete kinds plus
function types with parameter list, result list, and variadic flag
(reflect.FuncOf). Equality is structural, matching reflect.Type identity
for these types. -/
inductive GoType where
  | string
  | int
  | float32
  | float64
  | bool
  | func (params : List GoType) (results : List GoType) (variadic : Bool)

mutual

def GoType.decEq : (a b : GoType) → Decidable (a = b)
  | GoType.string, GoType.string => isTrue rfl
  | GoType.string, GoType.int => isFalse (fun h => GoType.noConfusion h)
  | GoType.string, GoType.float32 => isFalse (fun h => GoType.noConfusion h)
  | GoType.string, GoType.float64 => isFalse (fun h => GoType.noConfusion h)
  | GoType.string, GoType.bool => isFalse (fun h => GoType.noConfusion h)
  | GoType.string, GoType.func _ _ _ => isFalse (fun h => GoType.noConfusion h)
  | GoType.int, GoType.string => isFalse (fun h => GoType.noConfusion h)
  | GoType.int, GoType.int => isTrue rfl
  | GoType.int, GoType.float32 => isFalse (fun h => GoType.noConfusion h)
  | GoType.int, GoType.float64 => isFalse (fun h => GoType.noConfusion h)
  | GoType.int, GoType.bool => isFalse (fun h => GoType.noConfusion h)
  | GoType.int, GoType.func _ _ _ => isFalse (fun h => GoType.noConfusion h)
  | GoType.float32, GoType.string => isFalse (fun h => GoType.noConfusion h)
  | GoType.float32, GoType.int => isFalse (fun h => GoType.noConfusion h)
  | GoType.float32, GoType.float32 => isTrue rfl
  | GoType.float32, GoType.float64 => isFalse (fun h => GoType.noConfusion h)
  | GoType.float32, GoType.bool => isFalse (fun h => GoType.noConfusion h)
  | GoType.float32, GoType.func _ _ _ => isFalse (fun h => GoType.noConfusion h)
  | GoType.float64, GoType.string => isFalse (fun h => GoType.noConfusion h)
  | GoType.float64, GoType.int => isFalse (fun h => GoType.noConfusion h)
  | GoType.float64, GoType.float32 => isFalse (fun h => GoType.noConfusion h)
  | GoType.float64, GoType.float64 => isTrue rfl
  | GoType.float64, GoType.bool => isFalse (fun h => GoType.noConfusion h)
  | GoType.float64, GoType.func _ _ _ => isFalse (fun h => GoType.noConfusion h)
  | GoType.bool, GoType.string => isFalse (fun h => GoType.noConfusion h)
  | GoType.bool, GoType.int => isFalse (fun h => GoType.noConfusion h)
  | GoType.bool, GoType.float32 => isFalse (fun h => GoType.noConfusion h)
  | GoType.bool, GoType.float64 => isFalse (fun h => GoType.noConfusion h)
  | GoType.bool, GoType.bool => isTrue rfl
  | GoType.bool, GoType.func _ _ _ => isFalse (fun h => GoType.noConfusion h)
  | GoType.func _ _ _, GoType.string => isFalse (fun h => GoType.noConfusion h)
  | GoType.func _ _ _, GoType.int => isFalse (fun h => GoType.noConfusion h)
  | GoType.func _ _ _, GoType.float32 => isFalse (fun h => GoType.noConfusion h)
  | GoType.func _ _ _, GoType.float64 => isFalse (fun h => GoType.noConfusion h)
  | GoType.func _ _ _, GoType.bool => isFalse (fun h => GoType.noConfusion h)
  | GoType.func p r v, GoType.func q s w =>
    match GoType.decEqList p q, GoType.decEqList r s, instDecidableEqBool v w with
    | isTrue h1, isTrue h2, isTrue h3 => isTrue (h1 ▸ h2 ▸ h3 ▸ rfl)
    | isFalse h1, _, _ => isFalse (by intro h; injection h with hp hr hv; exact h1 hp)
    | _, isFalse h2, _ => isFalse (by intro h; injection h with hp hr hv; exact h2 hr)
    | _, _, isFalse h3 => isFalse (by intro h; injection h with hp hr hv; exact h3 hv)

def GoType.decEqList : (a b : List GoType) → Decidable (a = b)
  | [], [] => isTrue rfl
  | [], _ :: _ => isFalse (fun h => List.noConfusion h)
  | _ :: _, [] => isFalse (fun h => List.noConfusion h)
  | a :: as, b :: bs =>
    match GoType.decEq a b, GoType.decEqList as bs with
    | isTrue h1, isTrue h2 => isTrue (h1 ▸ h2 ▸ rfl)
    | isFalse h1, _ => isFalse (by intro h; injection h with hh ht; exact h1 hh)
    | _, isFalse h2 => isFalse (by intro h; injection h with hh ht; exact h2 ht)

end

instance : DecidableEq GoType := GoType.decEq

/-- A Go value as the bus sees it: its reflect type, plus an identity tag
modelling pointer identity of interface values (used by Go `==` on
reflect.Value for callbacks). -/
structure GoValue where
  type : GoType
  id : Nat
deriving DecidableEq

/-- Listener, as in events.go: topic, once flag, delivery channel (modelled
by a numeric channel identity) and the callback value. -/
structure Listener where
  topic : String
  once : Bool
  channel : Nat
  callback : GoValue
deriving DecidableEq

/-- event struct: topic plus argument list. -/
structure Event where
  topic : String
  data : List GoValue
deriving DecidableEq

/-- EventMap: Go map from topic to a list of sample values whose types
declare the topic's argument types. -/
abbrev EventMap := String → Option (List GoValue)

/-- The distinct error results produced by the bus (each fmt.Errorf site). -/
inductive BusError where
  | argumentMismatch
  | noSuchTopic (topic : String)
  | messageDataMismatch
deriving DecidableEq

/-- The dispatcher-owned state of the bus: the optional event map and the
topicListeners map. -/
structure BusState where
  eventMap : Option EventMap
  topicListeners : String → Option (List Listener)

/-- Update one key of the topicListeners map. -/
def mapSet (m : String → Option (List Listener)) (k : String) (v : List Listener) :
    String → Option (List Listener) :=
  fun k' => if k' = k then some v else m k'

/-- typesOf: the reflect types of an argument list. -/
def typesOf (args : List GoValue) : List GoType :=
  args.map (fun arg => arg.type)

/-- verifyListener: with no event map, accept; otherwise require the topic
declared and the callback type equal to FuncOf(argTypes, [], false). -/
def verifyListener (b : BusState) (l : Listener) : Option BusError :=
  match b.eventMap with
  | none => none
  | some em =>
    match em l.topic with
    | some eventType =>
      let argTypes := typesOf eventType
      let expected := GoType.func argTypes [] false
      if l.callback.type ≠ expected then some BusError.argumentMismatch
      else none
    | none => some (BusError.noSuchTopic l.topic)

/-- addListener: verify, then append to the topic's list (empty when the
topic is absent from the map). -/
def addListener (b : BusState) (l : Listener) : BusState × Option BusError :=
  match verifyListener b l with
  | some err => (b, some err)
  | none =>
    let existing := (b.topicListeners l.topic).getD []
    ({ b with topicListeners := mapSet b.topicListeners l.topic (existing ++ [l]) },
      none)

/-- The loop body of removeListener. In the Go source the loop variable
shadows the function parameter (`for _, l := range listeners`), so the
guard `l.callback == l.callback` compares each element's callback with
itself and always holds: every listener of the topic is closed and
dropped. The returned lists are the kept listeners and the closed
channels, in iteration order. -/
def removeLoop : List Listener → List Listener × List Nat
  | [] => ([], [])
  | l :: rest =>
    let res := removeLoop rest
    if l.callback = l.callback then (res.1, l.channel :: res.2)
    else (l :: res.1, res.2)

/-- removeListener: when the topic exists in the map, run the loop and store
the kept list back; otherwise do nothing. -/
def removeListener (b : BusState) (l : Listener) : BusState × List Nat :=
  match b.topicListeners l.topic with
  | some listeners =>
    let res := removeLoop listeners
    ({ b with topicListeners := mapSet b.topicListeners l.topic res.1 }, res.2)
  | none => (b, [])

/-- verifyEvent: with no event map, accept; otherwise require the topic
declared and the data types DeepEqual to the declared types. -/
def verifyEvent (b : BusState) (evnt : Event) : Option BusError :=
  match b.eventMap with
  | none => none
  | some em =>
    match em evnt.topic with
    | some eventType =>
      let argTypes := typesOf eventType
      let expected := typesOf evnt.data
      if argTypes ≠ expected then some BusError.messageDataMismatch
      else none
    | none => some (BusError.noSuchTopic evnt.topic)

/-- The loop body of broadcast: each listener is sent the data on its
channel; non-once listeners are kept, once listeners are dropped and their
channels closed. Returns (kept, sends, closes) in iteration order. -/
def broadcastLoop (data : List GoValue) :
    List Listener → List Listener × List (Nat × List GoValue) × List Nat
  | [] => ([], [], [])
  | l :: rest =>
    let res := broadcastLoop data rest
    if !l.once then (l :: res.1, (l.channel, data) :: res.2.1, res.2.2)
    else (res.1, (l.channel, data) :: res.2.1, l.channel :: res.2.2)

/-- broadcast: verify the event, then fan out to the topic's listeners,
keeping non-once listeners. Result: new state, sends, closes, error. -/
def broadcast (b : BusState) (evnt : Event) :
    BusState × List (Nat × List GoValue) × List Nat × Option BusError :=
  match verifyEvent b evnt with
  | some err => (b, [], [], some err)
  | none =>
    match b.topicListeners evnt.topic with
    | some listeners =>
      let res := broadcastLoop evnt.data listeners
      ({ b with topicListeners := mapSet b.topicListeners evnt.topic res.1 },
        res.2.1, res.2.2, none)
    | none => (b, [], [], none)

/-- The three request kinds carried on the bus channel. -/
inductive Request where
  | add (l : Listener)
  | remove (l : Listener)
  | send (evnt : Event)
deriving DecidableEq

/-- One iteration of the dispatcher loop in NewBus: apply a single request
to the bus state. Result: new state, sends, closes, error reply. -/
def applyRequest (b : BusState) : Request → BusState × List (Nat × List GoValue) × List Nat × Option BusError
  | Request.add l =>
    let res := addListener b l
    (res.1, [], [], res.2)
  | Request.remove l =>
    let res := removeListener b l
    (res.1, [], res.2, none)
  | Request.send evnt => broadcast b evnt

/-- The dispatcher loop: consume the FIFO request queue one request at a
time, accumulating sends and closes in order. -/
def runRequests (b : BusState) : List Request → BusState × List (Nat × List GoValue) × List Nat
  | [] => (b, [], [])
  | r :: rest =>
    let step := applyRequest b r
    let res := runRequests step.1 rest
    (res.1, step.2.1 ++ res.2.1, step.2.2.1 ++ res.2.2)

/-- Outcome of registerListener: the Go function either panics (non-function
callback) or returns the listener together with the dispatcher's error
reply. -/
inductive RegResult where
  | panicked (msg : String)
  | returned (l : Listener) (err : Option BusError)
deriving DecidableEq

/-- Is the callback value of function kind (reflect.TypeOf(cb).Kind() ==
reflect.Func)? -/
def callbackKindIsFunc (callback : GoValue) : Bool :=
  match callback.type with
  | GoType.func _ _ _ => true
  | _ => false

/-- registerListener combined with the dispatcher's handling of the add
request it enqueues (the caller blocks on the errors channel, so the two
run back to back): panic when the callback is not a function, otherwise
build the Listener with a fresh channel and run addListener. -/
def registerListener (b : BusState) (topic : String) (callback : GoValue)
    (callOnce : Bool) (freshChannel : Nat) : RegResult × BusState :=
  if !(callbackKindIsFunc callback) then
    (RegResult.panicked "Listeners must be functions", b)
  else
    let l : Listener :=
      { topic := topic, once := callOnce, channel := freshChannel, callback := callback }
    let res := addListener b l
    (RegResult.returned l res.2, res.1)

/-- The configuration record built by NewBus before the dispatcher starts:
queue length and optional event map. -/
structure BusInit where
  queueLength : Int
  eventMap : Option EventMap

/-- WithEventMap option. -/
def WithEventMap (eventMap : EventMap) : BusInit → BusInit :=
  fun b => { b with eventMap := some eventMap }

/-- WithQueueLength option. -/
def WithQueueLength (length : Int) : BusInit → BusInit :=
  fun b => { b with queueLength := length }

/-- NewBus: start from queueLength 10, apply the options in order. The
request channel is then created with capacity queueLength. -/
def NewBus (options : List (BusInit → BusInit)) : BusInit :=
  options.foldl (fun b o => o b) { queueLength := 10, eventMap := none }

/-- The dispatcher state right after NewBus: the chosen event map and an
empty topicListeners map. -/
def startState (b : BusInit) : BusState :=
  { eventMap := b.eventMap, topicListeners := fun _ => none }

end Eventually

namespace Eventually

/-! Basic lemmas about the map model and the loop bodies. -/

theorem mapSet_same (m : String → Option (List Listener)) (k : String) (v : List Listener) :
    mapSet m k v k = some v := by
  simp [mapSet]

theorem mapSet_ne (m : String → Option (List Listener)) (k k' : String) (v : List Listener)
    (h : k' ≠ k) : mapSet m k v k' = m k' := by
  simp [mapSet, h]

/-- The shadowed guard in removeListener always holds, so the loop keeps
nothing and closes every channel of the list, in order. -/
theorem removeLoop_eq (ls : List Listener) :
    removeLoop ls = ([], ls.map Listener.channel) := by
  induction ls with
  | nil => rfl
  | cons l rest ih => simp [removeLoop, ih]

/-- The broadcast loop keeps exactly the non-once listeners, sends the data
to every listener in list order, and closes the channels of the once
listeners in list order. -/
theorem broadcastLoop_eq (data : List GoValue) (ls : List Listener) :
    broadcastLoop data ls =
      (ls.filter (fun l => !l.once),
        ls.map (fun l => (l.channel, data)),
        (ls.filter (fun l => l.once)).map Listener.channel) := by
  induction ls with
  | nil => rfl
  | cons l rest ih =>
    cases honce : l.once <;> simp [broadcastLoop, ih, List.filter_cons, honce]

/-! Fixtures used by the concrete witnesses below. -/

/-- Fixture: an int-typed Go value. -/
def intVal (n : Nat) : GoValue := { type := GoType.int, id := n }

/-- Fixture: a string-typed Go value. -/
def strVal (n : Nat) : GoValue := { type := GoType.string, id := n }

/-- Fixture: a callback value of type func(int). -/
def intCallback (n : Nat) : GoValue :=
  { type := GoType.func [GoType.int] [] false, id := n }

/-- Fixture: the dispatcher state of a freshly constructed default bus. -/
def emptyBus : BusState := startState (NewBus [])

/-- Fixture: listener A on topic "t", channel 0. -/
def listenerA : Listener :=
  { topic := "t", once := false, channel := 0, callback := intCallback 100 }

/-- Fixture: listener B on topic "t", channel 1, a different callback. -/
def listenerB : Listener :=
  { topic := "t", once := false, channel := 1, callback := intCallback 101 }

/-- Fixture: an unchecked bus whose topic "t" holds listeners A and B. -/
def twoListenerBus : BusState :=
  { eventMap := none,
    topicListeners := fun k => if k = "t" then some [listenerA, listenerB] else none }

/-! ### C8 -/

theorem foldl_eventMap_options_queueLength (options : List (BusInit → BusInit)) :
    ∀ b : BusInit, (∀ o ∈ options, ∃ em, o = WithEventMap em) →
      (options.foldl (fun b o => o b) b).queueLength = b.queueLength := by
  induction options with
  | nil => intro b _; rfl
  | cons o rest ih =>
    intro b h
    simp only [List.foldl_cons]
    obtain ⟨em, rfl⟩ := h o (List.mem_cons_self o rest)
    rw [ih (WithEventMap em b) (fun o2 ho2 => h o2 (List.mem_cons_of_mem _ ho2))]
    rfl

/-- C8: a bus constructed without the WithQueueLength option (every option
given is a WithEventMap option) has request-queue capacity exactly 10,
the default queueLength. -/
theorem newBus_default_queueLength (options : List (BusInit → BusInit))
    (h : ∀ o ∈ options, ∃ em, o = WithEventMap em) :
    (NewBus options).queueLength = 10 :=
  foldl_eventMap_options_queueLength options { queueLength := 10, eventMap := none } h

theorem newBus_default_queueLength_witness :
    (NewBus [WithEventMap (fun _ => none)]).queueLength = 10 :=
  newBus_default_queueLength [WithEventMap (fun _ => none)]
    (fun o ho => ⟨fun _ => none, by rw [List.mem_singleton] at ho; exact ho⟩)

/-! ### C7 -/

/-- C7 counterexample: registering the non-function value intVal 3 panics
with "Listeners must be functions" and leaves the bus untouched; the
outcome is the RegResult.panicked constructor, not a RegResult.returned
value, so no error is returned to the caller and no registration happens. -/
theorem registerListener_nonfunc_no_error_return :
    registerListener emptyBus "t" (intVal 3) true 0
      = (RegResult.panicked "Listeners must be functions", emptyBus) := rfl

/-- C7 amended: Once and On with a non-callable (non-function) callback do
not complete the registration: registerListener panics with "Listeners
must be functions" and leaves the bus state unchanged, rather than
returning an error. -/
theorem registerListener_nonfunc_panics (b : BusState) (topic : String)
    (callback : GoValue) (callOnce : Bool) (freshChannel : Nat)
    (h : callbackKindIsFunc callback = false) :
    registerListener b topic callback callOnce freshChannel
      = (RegResult.panicked "Listeners must be functions", b) := by
  simp [registerListener, h]

theorem registerListener_nonfunc_panics_witness :
    callbackKindIsFunc (intVal 3) = false ∧
    registerListener emptyBus "t" (intVal 3) true 0
      = (RegResult.panicked "Listeners must be functions", emptyBus) :=
  ⟨by decide, registerListener_nonfunc_panics emptyBus "t" (intVal 3) true 0 (by decide)⟩

/-! ### C1 -/

/-- C1: evaluating removeListener at a topic holding two listeners with
distinct callbacks and channels: unsubscribing listener A closes both
channels 0 and 1 and empties the topic's list (the loop variable shadows
the parameter, so the guard compares each element's callback with itself),
instead of closing only channel 0 and keeping listener B. -/
theorem removeListener_removes_every_listener :
    (removeListener twoListenerBus listenerA).2 = [0, 1]
    ∧ (removeListener twoListenerBus listenerA).1.topicListeners "t" = some []
    ∧ listenerA ≠ listenerB := by
  refine ⟨by decide, by decide, by decide⟩

end Eventually

namespace Eventually

/-! Fixtures for the event-map claims: a registry declaring topic "hello"
with argument types (string, int). -/

/-- Fixture: event map declaring "hello" as (string, int). -/
def helloMap : EventMap :=
  fun topic => if topic = "hello" then some [strVal 20, intVal 21] else none

/-- Fixture: a fresh bus checked against helloMap. -/
def helloBus : BusState :=
  { eventMap := some helloMap, topicListeners := fun _ => none }

/-- Fixture: listener on "hello" whose callback has type func(string, int). -/
def goodListener : Listener :=
  { topic := "hello", once := true, channel := 2,
    callback := { type := GoType.func [GoType.string, GoType.int] [] false, id := 102 } }

/-- Fixture: listener on "hello" whose callback has type func(string, float32). -/
def badListener : Listener :=
  { topic := "hello", once := true, channel := 3,
    callback := { type := GoType.func [GoType.string, GoType.float32] [] false, id := 103 } }

/-- Fixture: listener on the undeclared topic "nope". -/
def unknownListener : Listener :=
  { topic := "nope", once := true, channel := 4,
    callback := { type := GoType.func [] [] false, id := 104 } }

/-- Fixture: listener on "hello" whose callback has a result type
(func(string, int) int). -/
def returningListener : Listener :=
  { topic := "hello", once := true, channel := 5,
    callback := { type := GoType.func [GoType.string, GoType.int] [GoType.int] false,
                  id := 105 } }

/-! ### C4 -/

/-- C4: on a bus with an event map, addListener of a listener on an
undeclared topic returns the no-such-topic error with the state unchanged;
a declared topic with a callback type different from
func(declared types, no results, non-variadic) returns the
argument-mismatch error with the state unchanged; a matching callback is
appended to the topic's list with no error. -/
theorem addListener_eventMap_spec (b : BusState) (em : EventMap) (l : Listener)
    (hm : b.eventMap = some em) :
    (em l.topic = none →
      addListener b l = (b, some (BusError.noSuchTopic l.topic)))
    ∧ (∀ eventType, em l.topic = some eventType →
        l.callback.type ≠ GoType.func (typesOf eventType) [] false →
        addListener b l = (b, some BusError.argumentMismatch))
    ∧ (∀ eventType, em l.topic = some eventType →
        l.callback.type = GoType.func (typesOf eventType) [] false →
        (addListener b l).2 = none
        ∧ (addListener b l).1.topicListeners l.topic
          = some ((b.topicListeners l.topic).getD [] ++ [l])) := by
  refine ⟨fun ht => ?_, fun eventType ht hne => ?_, fun eventType ht heq => ?_⟩
  · simp [addListener, verifyListener, hm, ht]
  · simp [addListener, verifyListener, hm, ht, hne]
  · simp [addListener, verifyListener, hm, ht, heq, mapSet_same]

theorem addListener_eventMap_spec_witness :
    addListener helloBus unknownListener
      = (helloBus, some (BusError.noSuchTopic "nope"))
    ∧ addListener helloBus badListener
      = (helloBus, some BusError.argumentMismatch)
    ∧ (addListener helloBus goodListener).2 = none := by
  refine ⟨?_, ?_, ?_⟩
  · exact (addListener_eventMap_spec helloBus helloMap unknownListener rfl).1 (by decide)
  · exact (addListener_eventMap_spec helloBus helloMap badListener rfl).2.1
      [strVal 20, intVal 21] (by decide) (by decide)
  · exact ((addListener_eventMap_spec helloBus helloMap goodListener rfl).2.2
      [strVal 20, intVal 21] (by decide) (by decide)).1

/-! ### C5 -/

/-- C5: on a bus with an event map, broadcasting an event on an undeclared
topic returns the no-such-topic error, and broadcasting on a declared
topic whose data types differ from the declared types returns the
message-data-mismatch error; in both cases nothing is sent to any
listener, no channel is closed, and the state is unchanged. -/
theorem broadcast_eventMap_spec (b : BusState) (em : EventMap) (evnt : Event)
    (hm : b.eventMap = some em) :
    (em evnt.topic = none →
      broadcast b evnt = (b, [], [], some (BusError.noSuchTopic evnt.topic)))
    ∧ (∀ eventType, em evnt.topic = some eventType →
        typesOf eventType ≠ typesOf evnt.data →
        broadcast b evnt = (b, [], [], some BusError.messageDataMismatch)) := by
  refine ⟨fun ht => ?_, fun eventType ht hne => ?_⟩
  · simp [broadcast, verifyEvent, hm, ht]
  · simp [broadcast, verifyEvent, hm, ht, hne]

theorem broadcast_eventMap_spec_witness :
    broadcast helloBus { topic := "nope", data := [] }
      = (helloBus, [], [], some (BusError.noSuchTopic "nope"))
    ∧ broadcast helloBus { topic := "hello", data := [strVal 30, strVal 31] }
      = (helloBus, [], [], some BusError.messageDataMismatch) := by
  refine ⟨?_, ?_⟩
  · exact (broadcast_eventMap_spec helloBus helloMap
      { topic := "nope", data := [] } rfl).1 (by decide)
  · exact (broadcast_eventMap_spec helloBus helloMap
      { topic := "hello", data := [strVal 30, strVal 31] } rfl).2
      [strVal 20, intVal 21] (by decide) (by decide)

/-! ### C10 -/

/-- C10: on a bus with an event map, a listener for a declared topic whose
callback is a function with exactly the declared parameter types is still
rejected with the argument-mismatch error whenever it has any result
types or is variadic: verifyListener compares against
func(declared types, no results, non-variadic). -/
theorem addListener_rejects_results_or_variadic (b : BusState) (em : EventMap)
    (l : Listener) (eventType : List GoValue)
    (params results : List GoType) (variadic : Bool)
    (hm : b.eventMap = some em) (ht : em l.topic = some eventType)
    (hcb : l.callback.type = GoType.func params results variadic)
    (hp : params = typesOf eventType)
    (hbad : results ≠ [] ∨ variadic = true) :
    addListener b l = (b, some BusError.argumentMismatch) := by
  have hne : l.callback.type ≠ GoType.func (typesOf eventType) [] false := by
    rw [hcb, hp]
    intro h
    injection h with h1 h2 h3
    rcases hbad with hr | hv
    · exact hr h2
    · rw [hv] at h3; exact Bool.noConfusion h3
  simp [addListener, verifyListener, hm, ht, hne]

theorem addListener_rejects_results_or_variadic_witness :
    addListener helloBus returningListener
      = (helloBus, some BusError.argumentMismatch) :=
  addListener_rejects_results_or_variadic helloBus helloMap returningListener
    [strVal 20, intVal 21] [GoType.string, GoType.int] [GoType.int] false
    rfl (by decide) rfl (by decide) (Or.inl (by decide))

/-! ### C2 -/

/-- C2: a broadcast that passes the event check (in particular any event on
an unchecked bus) sends the event data exactly once to each listener of
the topic, in list order, and returns no error; and a successful
addListener appends the new listener at the end of its topic's list, so
list order is registration order. -/
theorem post_delivers_in_registration_order :
    (∀ (b : BusState) (evnt : Event) (listeners : List Listener),
      verifyEvent b evnt = none →
      b.topicListeners evnt.topic = some listeners →
      (broadcast b evnt).2.1 = listeners.map (fun l => (l.channel, evnt.data))
      ∧ (broadcast b evnt).2.2.2 = none)
    ∧ (∀ (b : BusState) (l : Listener), (addListener b l).2 = none →
        (addListener b l).1.topicListeners l.topic
          = some ((b.topicListeners l.topic).getD [] ++ [l])) := by
  constructor
  · intro b evnt listeners hv hl
    simp [broadcast, hv, hl, broadcastLoop_eq]
  · intro b l hnone
    cases hvl : verifyListener b l with
    | some err =>
      simp only [addListener, hvl] at hnone
      exact Option.noConfusion hnone
    | none =>
      simp only [addListener, hvl]
      exact mapSet_same _ _ _

theorem post_delivers_in_registration_order_witness :
    ((broadcast twoListenerBus { topic := "t", data := [intVal 5] }).2.1
        = [(0, [intVal 5]), (1, [intVal 5])]
      ∧ (broadcast twoListenerBus { topic := "t", data := [intVal 5] }).2.2.2 = none)
    ∧ (addListener emptyBus listenerA).1.topicListeners "t"
        = some ((emptyBus.topicListeners "t").getD [] ++ [listenerA]) := by
  constructor
  · exact post_delivers_in_registration_order.1 twoListenerBus
      { topic := "t", data := [intVal 5] } [listenerA, listenerB] (by decide) (by decide)
  · exact post_delivers_in_registration_order.2 emptyBus listenerA (by decide)

end Eventually

namespace Eventually

/-! ### C9 -/

/-- The topic a request concerns. -/
def topicOfRequest : Request → String
  | Request.add l => l.topic
  | Request.remove l => l.topic
  | Request.send evnt => evnt.topic

theorem addListener_eventMap_inv (b : BusState) (l : Listener) :
    (addListener b l).1.eventMap = b.eventMap := by
  cases h : verifyListener b l <;> simp [addListener, h]

theorem removeListener_eventMap_inv (b : BusState) (l : Listener) :
    (removeListener b l).1.eventMap = b.eventMap := by
  cases h : b.topicListeners l.topic <;> simp [removeListener, h]

theorem broadcast_eventMap_inv (b : BusState) (evnt : Event) :
    (broadcast b evnt).1.eventMap = b.eventMap := by
  cases h : verifyEvent b evnt with
  | some err => simp [broadcast, h]
  | none => cases h2 : b.topicListeners evnt.topic <;> simp [broadcast, h, h2]

theorem applyRequest_eventMap_inv (b : BusState) (r : Request) :
    (applyRequest b r).1.eventMap = b.eventMap := by
  cases r with
  | add l => simpa [applyRequest] using addListener_eventMap_inv b l
  | remove l => simpa [applyRequest] using removeListener_eventMap_inv b l
  | send evnt => simpa [applyRequest] using broadcast_eventMap_inv b evnt

/-- A dispatcher step touches no topic other than its own. -/
theorem applyRequest_topicListeners_other (b : BusState) (r : Request) (t : String)
    (h : topicOfRequest r ≠ t) :
    (applyRequest b r).1.topicListeners t = b.topicListeners t := by
  cases r with
  | add l =>
    cases hv : verifyListener b l with
    | some err => simp [applyRequest, addListener, hv]
    | none =>
      simp only [applyRequest, addListener, hv]
      exact mapSet_ne _ _ _ _ (Ne.symm h)
  | remove l =>
    cases hm : b.topicListeners l.topic with
    | none => simp [applyRequest, removeListener, hm]
    | some listeners =>
      simp only [applyRequest, removeListener, hm]
      exact mapSet_ne _ _ _ _ (Ne.symm h)
  | send evnt =>
    cases hv : verifyEvent b evnt with
    | some err => simp [applyRequest, broadcast, hv]
    | none =>
      cases hm : b.topicListeners evnt.topic with
      | none => simp [applyRequest, broadcast, hv, hm]
      | some listeners =>
        simp only [applyRequest, broadcast, hv, hm]
        exact mapSet_ne _ _ _ _ (Ne.symm h)

theorem verifyListener_congr (b b2 : BusState) (l : Listener)
    (hem : b.eventMap = b2.eventMap) :
    verifyListener b l = verifyListener b2 l := by
  unfold verifyListener
  rw [hem]

theorem verifyEvent_congr (b b2 : BusState) (evnt : Event)
    (hem : b.eventMap = b2.eventMap) :
    verifyEvent b evnt = verifyEvent b2 evnt := by
  unfold verifyEvent
  rw [hem]

/-- A dispatcher step on topic t reads only the event map and the topic's
own list: two states agreeing there step to states agreeing there. -/
theorem applyRequest_topicListeners_congr (b b2 : BusState) (r : Request) (t : String)
    (hem : b.eventMap = b2.eventMap)
    (ht : b.topicListeners t = b2.topicListeners t)
    (hr : topicOfRequest r = t) :
    (applyRequest b r).1.topicListeners t = (applyRequest b2 r).1.topicListeners t := by
  cases r with
  | add l =>
    have hlt : l.topic = t := hr
    subst hlt
    rw [show (applyRequest b (Request.add l)).1 = (addListener b l).1 from rfl,
      show (applyRequest b2 (Request.add l)).1 = (addListener b2 l).1 from rfl]
    cases hv : verifyListener b2 l with
    | some err =>
      simp [addListener, verifyListener_congr b b2 l hem, hv]
      exact ht
    | none =>
      simp only [addListener, verifyListener_congr b b2 l hem, hv]
      rw [mapSet_same, mapSet_same, ht]
  | remove l =>
    have hlt : l.topic = t := hr
    subst hlt
    rw [show (applyRequest b (Request.remove l)).1 = (removeListener b l).1 from rfl,
      show (applyRequest b2 (Request.remove l)).1 = (removeListener b2 l).1 from rfl]
    cases hm : b2.topicListeners l.topic with
    | none =>
      have hm1 : b.topicListeners l.topic = none := by rw [ht]; exact hm
      simp only [removeListener, hm, hm1]
    | some listeners =>
      have hm1 : b.topicListeners l.topic = some listeners := by rw [ht]; exact hm
      simp only [removeListener, hm, hm1]
      rw [mapSet_same, mapSet_same]
  | send evnt =>
    have hlt : evnt.topic = t := hr
    subst hlt
    rw [show (applyRequest b (Request.send evnt)).1 = (broadcast b evnt).1 from rfl,
      show (applyRequest b2 (Request.send evnt)).1 = (broadcast b2 evnt).1 from rfl]
    cases hv : verifyEvent b2 evnt with
    | some err =>
      simp [broadcast, verifyEvent_congr b b2 evnt hem, hv]
      exact ht
    | none =>
      cases hm : b2.topicListeners evnt.topic with
      | none =>
        have hm1 : b.topicListeners evnt.topic = none := by rw [ht]; exact hm
        simp only [broadcast, verifyEvent_congr b b2 evnt hem, hv, hm, hm1]
      | some listeners =>
        have hm1 : b.topicListeners evnt.topic = some listeners := by rw [ht]; exact hm
        simp only [broadcast, verifyEvent_congr b b2 evnt hem, hv, hm, hm1]
        rw [mapSet_same, mapSet_same]

theorem runRequests_topic_filter (t : String) (reqs : List Request) :
    ∀ b b2 : BusState, b.eventMap = b2.eventMap →
    b.topicListeners t = b2.topicListeners t →
    (runRequests b reqs).1.topicListeners t
      = (runRequests b2 (reqs.filter (fun r => topicOfRequest r == t))).1.topicListeners t := by
  induction reqs with
  | nil => intro b b2 _ ht; simpa [runRequests] using ht
  | cons r rest ih =>
    intro b b2 hem ht
    by_cases hr : topicOfRequest r = t
    · rw [List.filter_cons_of_pos (by simpa using hr)]
      show (runRequests (applyRequest b r).1 rest).1.topicListeners t
        = (runRequests (applyRequest b2 r).1
            (rest.filter (fun r => topicOfRequest r == t))).1.topicListeners t
      exact ih (applyRequest b r).1 (applyRequest b2 r).1
        (by rw [applyRequest_eventMap_inv, applyRequest_eventMap_inv, hem])
        (applyRequest_topicListeners_congr b b2 r t hem ht hr)
    · rw [List.filter_cons_of_neg (by simpa using hr)]
      show (runRequests (applyRequest b r).1 rest).1.topicListeners t
        = (runRequests b2 (rest.filter (fun r => topicOfRequest r == t))).1.topicListeners t
      exact ih (applyRequest b r).1 b2
        (by rw [applyRequest_eventMap_inv]; exact hem)
        (by rw [applyRequest_topicListeners_other b r t hr]; exact ht)

/-- C9: the dispatcher applies all add, remove and send requests one at a
time in queue (FIFO) order — runRequests is that fold — and the resulting
subscriber list of any topic t equals the list produced by that topic's
own subsequence of requests alone: requests on other topics can neither
lose, duplicate, nor otherwise disturb t's entries. -/
theorem dispatcher_serializes_per_topic (b : BusState) (reqs : List Request) (t : String) :
    (runRequests b reqs).1.topicListeners t
      = (runRequests b (reqs.filter (fun r => topicOfRequest r == t))).1.topicListeners t :=
  runRequests_topic_filter t reqs b b rfl rfl

end Eventually

namespace Eventually

/-! ### Channel-safety infrastructure for C6 and C3 -/

/-- The channels carried by the add requests of a queue, in order. Each Go
registration allocates its channel with make(chan ...), so these are
pairwise distinct and absent from the table in any real trace. -/
def addChannels : List Request → List Nat
  | [] => []
  | Request.add l :: rest => l.channel :: addChannels rest
  | Request.remove _ :: rest => addChannels rest
  | Request.send _ :: rest => addChannels rest

/-- Channel c belongs to some listener currently in the table. -/
def chanIn (b : BusState) (c : Nat) : Prop :=
  ∃ t ls l, b.topicListeners t = some ls ∧ l ∈ ls ∧ l.channel = c

/-- Channel c belongs to a once listener currently in the table. -/
def onceBound (b : BusState) (c : Nat) : Prop :=
  ∃ t ls l, b.topicListeners t = some ls ∧ l ∈ ls ∧ l.channel = c ∧ l.once = true

/-- Table sanity: within each topic the channels are pairwise distinct, and
no channel appears under two different topics. Holds for every state the
dispatcher can reach, since each registration gets a fresh channel. -/
def tableOk (b : BusState) : Prop :=
  (∀ t ls, b.topicListeners t = some ls → (ls.map Listener.channel).Nodup)
  ∧ (∀ t1 t2 ls1 ls2 c, t1 ≠ t2 →
      b.topicListeners t1 = some ls1 → b.topicListeners t2 = some ls2 →
      c ∈ ls1.map Listener.channel → c ∈ ls2.map Listener.channel → False)

theorem chanIn_mapSet (b : BusState) (k : String) (v : List Listener) (c : Nat) :
    chanIn { b with topicListeners := mapSet b.topicListeners k v } c ↔
      ((∃ l ∈ v, Listener.channel l = c)
        ∨ ∃ t ls l, t ≠ k ∧ b.topicListeners t = some ls ∧ l ∈ ls
            ∧ Listener.channel l = c) := by
  constructor
  · rintro ⟨t, ls, l, hlook, hmem, hc⟩
    have hlook2 : mapSet b.topicListeners k v t = some ls := hlook
    by_cases htk : t = k
    · subst htk
      rw [mapSet_same] at hlook2
      obtain rfl : v = ls := Option.some.inj hlook2
      exact Or.inl ⟨l, hmem, hc⟩
    · rw [mapSet_ne _ _ _ _ htk] at hlook2
      exact Or.inr ⟨t, ls, l, htk, hlook2, hmem, hc⟩
  · rintro (⟨l, hmem, hc⟩ | ⟨t, ls, l, htk, hlook, hmem, hc⟩)
    · exact ⟨k, v, l, mapSet_same _ _ _, hmem, hc⟩
    · refine ⟨t, ls, l, ?_, hmem, hc⟩
      show mapSet b.topicListeners k v t = some ls
      rw [mapSet_ne _ _ _ _ htk]
      exact hlook

theorem tableOk_mapSet (b : BusState) (k : String) (v : List Listener)
    (hok : tableOk b)
    (hnd : (v.map Listener.channel).Nodup)
    (hcross : ∀ c ∈ v.map Listener.channel, ∀ t ls, t ≠ k →
      b.topicListeners t = some ls → c ∉ ls.map Listener.channel) :
    tableOk { b with topicListeners := mapSet b.topicListeners k v } := by
  constructor
  · intro t ls hlook
    have hlook2 : mapSet b.topicListeners k v t = some ls := hlook
    by_cases htk : t = k
    · subst htk
      rw [mapSet_same] at hlook2
      obtain rfl : v = ls := Option.some.inj hlook2
      exact hnd
    · rw [mapSet_ne _ _ _ _ htk] at hlook2
      exact hok.1 t ls hlook2
  · intro t1 t2 ls1 ls2 c h12 hlook1 hlook2 hc1 hc2
    have ha : mapSet b.topicListeners k v t1 = some ls1 := hlook1
    have hb : mapSet b.topicListeners k v t2 = some ls2 := hlook2
    by_cases h1k : t1 = k
    · subst h1k
      rw [mapSet_same] at ha
      obtain rfl : v = ls1 := Option.some.inj ha
      have h2k : t2 ≠ t1 := fun h => h12 h.symm
      rw [mapSet_ne _ _ _ _ h2k] at hb
      exact hcross c hc1 t2 ls2 h2k hb hc2
    · rw [mapSet_ne _ _ _ _ h1k] at ha
      by_cases h2k : t2 = k
      · subst h2k
        rw [mapSet_same] at hb
        obtain rfl : v = ls2 := Option.some.inj hb
        exact hcross c hc2 t1 ls1 h1k ha hc1
      · rw [mapSet_ne _ _ _ _ h2k] at hb
        exact hok.2 t1 t2 ls1 ls2 c h12 ha hb hc1 hc2

end Eventually

namespace Eventually

theorem addListener_facts (b : BusState) (l : Listener)
    (hok : tableOk b) (hfresh : ¬ chanIn b l.channel) :
    tableOk (addListener b l).1
    ∧ (∀ c, chanIn (addListener b l).1 c → chanIn b c ∨ c = l.channel) := by
  cases hv : verifyListener b l with
  | some err =>
    simp only [addListener, hv]
    exact ⟨hok, fun c hc => Or.inl hc⟩
  | none =>
    simp only [addListener, hv]
    have hnd2 : (((b.topicListeners l.topic).getD [] ++ [l]).map Listener.channel).Nodup := by
      rw [List.map_append]
      refine List.Nodup.append ?_ (by simp) ?_
      · cases hm : b.topicListeners l.topic with
        | none => simp
        | some ls => simpa using hok.1 l.topic ls hm
      · intro c hc1 hc2
        simp only [List.map_cons, List.map_nil, List.mem_singleton] at hc2
        subst hc2
        apply hfresh
        cases hm : b.topicListeners l.topic with
        | none => rw [hm] at hc1; simp at hc1
        | some ls =>
          rw [hm] at hc1
          simp only [Option.getD_some] at hc1
          obtain ⟨l2, hl2, hc2⟩ := List.mem_map.1 hc1
          exact ⟨l.topic, ls, l2, hm, hl2, hc2⟩
    have hcross2 : ∀ c ∈ ((b.topicListeners l.topic).getD [] ++ [l]).map Listener.channel,
        ∀ t ls, t ≠ l.topic → b.topicListeners t = some ls →
        c ∉ ls.map Listener.channel := by
      intro c hc t ls htk hlook hmem
      rw [List.map_append] at hc
      rcases List.mem_append.1 hc with hc | hc
      · cases hm : b.topicListeners l.topic with
        | none => rw [hm] at hc; simp at hc
        | some old =>
          rw [hm] at hc
          simp only [Option.getD_some] at hc
          exact hok.2 t l.topic ls old c htk hlook hm hmem hc
      · simp only [List.map_cons, List.map_nil, List.mem_singleton] at hc
        subst hc
        obtain ⟨l2, hl2, hc2⟩ := List.mem_map.1 hmem
        exact hfresh ⟨t, ls, l2, hlook, hl2, hc2⟩
    refine ⟨tableOk_mapSet b l.topic _ hok hnd2 hcross2, ?_⟩
    intro c hc
    rcases (chanIn_mapSet b l.topic _ c).1 hc with ⟨l2, hmem, hc2⟩
      | ⟨t, ls, l2, htk, hlook, hmem, hc2⟩
    · rcases List.mem_append.1 hmem with h2 | h2
      · left
        cases hm : b.topicListeners l.topic with
        | none => rw [hm] at h2; simp at h2
        | some old =>
          rw [hm] at h2
          simp only [Option.getD_some] at h2
          exact ⟨l.topic, old, l2, hm, h2, hc2⟩
      · right
        simp only [List.mem_singleton] at h2
        subst h2
        exact hc2.symm
    · exact Or.inl ⟨t, ls, l2, hlook, hmem, hc2⟩

theorem removeListener_facts (b : BusState) (l : Listener) (hok : tableOk b) :
    tableOk (removeListener b l).1
    ∧ (removeListener b l).2.Nodup
    ∧ (∀ c ∈ (removeListener b l).2, chanIn b c)
    ∧ (∀ c ∈ (removeListener b l).2, ¬ chanIn (removeListener b l).1 c)
    ∧ (∀ c, chanIn (removeListener b l).1 c → chanIn b c) := by
  cases hm : b.topicListeners l.topic with
  | none =>
    simp only [removeListener, hm]
    exact ⟨hok, by simp, by simp, by simp, fun c hc => hc⟩
  | some ls =>
    simp only [removeListener, hm, removeLoop_eq]
    refine ⟨?_, ?_, ?_, ?_, ?_⟩
    · exact tableOk_mapSet b l.topic [] hok (by simp) (by simp)
    · exact hok.1 l.topic ls hm
    · intro c hc
      obtain ⟨l2, hl2, hc2⟩ := List.mem_map.1 hc
      exact ⟨l.topic, ls, l2, hm, hl2, hc2⟩
    · intro c hc hin
      rcases (chanIn_mapSet b l.topic [] c).1 hin with ⟨l2, hmem, _⟩
        | ⟨t, ls2, l2, htk, hlook, hmem, hc2⟩
      · exact absurd hmem (List.not_mem_nil l2)
      · exact hok.2 t l.topic ls2 ls c htk hlook hm (List.mem_map.2 ⟨l2, hmem, hc2⟩) hc
    · intro c hin
      rcases (chanIn_mapSet b l.topic [] c).1 hin with ⟨l2, hmem, _⟩
        | ⟨t, ls2, l2, htk, hlook, hmem, hc2⟩
      · exact absurd hmem (List.not_mem_nil l2)
      · exact ⟨t, ls2, l2, hlook, hmem, hc2⟩

theorem broadcast_facts (b : BusState) (evnt : Event) (hok : tableOk b) :
    tableOk (broadcast b evnt).1
    ∧ (broadcast b evnt).2.2.1.Nodup
    ∧ (∀ c ∈ (broadcast b evnt).2.2.1, chanIn b c)
    ∧ (∀ c ∈ (broadcast b evnt).2.2.1, ¬ chanIn (broadcast b evnt).1 c)
    ∧ (∀ c, chanIn (broadcast b evnt).1 c → chanIn b c) := by
  cases hv : verifyEvent b evnt with
  | some err =>
    simp only [broadcast, hv]
    exact ⟨hok, by simp, by simp, by simp, fun c hc => hc⟩
  | none =>
    cases hm : b.topicListeners evnt.topic with
    | none =>
      simp only [broadcast, hv, hm]
      exact ⟨hok, by simp, by simp, by simp, fun c hc => hc⟩
    | some ls =>
      simp only [broadcast, hv, hm, broadcastLoop_eq]
      have hndls : (ls.map Listener.channel).Nodup := hok.1 evnt.topic ls hm
      have hsubK : List.Sublist ((ls.filter (fun l => !l.once)).map Listener.channel)
          (ls.map Listener.channel) := (List.filter_sublist ls).map Listener.channel
      have hsubC : List.Sublist ((ls.filter (fun l => l.once)).map Listener.channel)
          (ls.map Listener.channel) := (List.filter_sublist ls).map Listener.channel
      refine ⟨?_, ?_, ?_, ?_, ?_⟩
      · refine tableOk_mapSet b evnt.topic _ hok (List.Nodup.sublist hsubK hndls) ?_
        intro c hc t ls2 htk hlook hmem
        exact hok.2 t evnt.topic ls2 ls c htk hlook hm hmem (hsubK.subset hc)
      · exact List.Nodup.sublist hsubC hndls
      · intro c hc
        obtain ⟨l2, hl2, hc2⟩ := List.mem_map.1 hc
        exact ⟨evnt.topic, ls, l2, hm, (List.mem_filter.1 hl2).1, hc2⟩
      · intro c hc hin
        obtain ⟨l3, hl3, hc3⟩ := List.mem_map.1 hc
        rcases (chanIn_mapSet b evnt.topic _ c).1 hin with ⟨l2, hmem, hc2⟩
          | ⟨t, ls2, l2, htk, hlook, hmem, hc2⟩
        · have hl2ls : l2 ∈ ls := (List.mem_filter.1 hmem).1
          have hl3ls : l3 ∈ ls := (List.mem_filter.1 hl3).1
          have heq : l2 = l3 := List.inj_on_of_nodup_map hndls hl2ls hl3ls
            (by rw [hc2, hc3])
          have honce2 : l2.once = false := by simpa using (List.mem_filter.1 hmem).2
          have honce3 : l3.once = true := by simpa using (List.mem_filter.1 hl3).2
          rw [heq, honce3] at honce2
          exact Bool.noConfusion honce2
        · exact hok.2 t evnt.topic ls2 ls c htk hlook hm
            (List.mem_map.2 ⟨l2, hmem, hc2⟩) (hsubC.subset hc)
      · intro c hin
        rcases (chanIn_mapSet b evnt.topic _ c).1 hin with ⟨l2, hmem, hc2⟩
          | ⟨t, ls2, l2, htk, hlook, hmem, hc2⟩
        · exact ⟨evnt.topic, ls, l2, hm, (List.mem_filter.1 hmem).1, hc2⟩
        · exact ⟨t, ls2, l2, hlook, hmem, hc2⟩

theorem applyRequest_step_facts (b : BusState) (r : Request) (hok : tableOk b)
    (hfresh : ∀ l0, r = Request.add l0 → ¬ chanIn b l0.channel) :
    tableOk (applyRequest b r).1
    ∧ (applyRequest b r).2.2.1.Nodup
    ∧ (∀ c ∈ (applyRequest b r).2.2.1, chanIn b c)
    ∧ (∀ c ∈ (applyRequest b r).2.2.1, ¬ chanIn (applyRequest b r).1 c)
    ∧ (∀ c, chanIn (applyRequest b r).1 c →
        chanIn b c ∨ ∃ l0, r = Request.add l0 ∧ c = l0.channel) := by
  cases r with
  | add l =>
    obtain ⟨h1, h2⟩ := addListener_facts b l hok (hfresh l rfl)
    refine ⟨h1, List.nodup_nil, by simp [applyRequest], by simp [applyRequest], ?_⟩
    intro c hc
    rcases h2 c hc with h | h
    · exact Or.inl h
    · exact Or.inr ⟨l, rfl, h⟩
  | remove l =>
    obtain ⟨h1, h2, h3, h4, h5⟩ := removeListener_facts b l hok
    exact ⟨h1, h2, h3, h4, fun c hc => Or.inl (h5 c hc)⟩
  | send evnt =>
    obtain ⟨h1, h2, h3, h4, h5⟩ := broadcast_facts b evnt hok
    exact ⟨h1, h2, h3, h4, fun c hc => Or.inl (h5 c hc)⟩

end Eventually

namespace Eventually

/-! ### C6 -/

theorem runRequests_closes_nodup_aux (reqs : List Request) :
    ∀ b : BusState, tableOk b →
    (∀ c ∈ addChannels reqs, ¬ chanIn b c) →
    (addChannels reqs).Nodup →
    (runRequests b reqs).2.2.Nodup
    ∧ (∀ c ∈ (runRequests b reqs).2.2, chanIn b c ∨ c ∈ addChannels reqs) := by
  induction reqs with
  | nil =>
    intro b _ _ _
    exact ⟨List.nodup_nil, by simp [runRequests]⟩
  | cons r rest ih =>
    intro b hok hfresh hnd
    have hAC : ∀ c, c ∈ addChannels rest → c ∈ addChannels (r :: rest) := by
      intro c hc
      cases r with
      | add l => exact List.mem_cons_of_mem _ hc
      | remove l => exact hc
      | send e => exact hc
    have hndRest : (addChannels rest).Nodup := by
      cases r with
      | add l =>
        simp only [addChannels] at hnd
        exact hnd.of_cons
      | remove l => exact hnd
      | send e => exact hnd
    have hfreshStep : ∀ l0, r = Request.add l0 → ¬ chanIn b l0.channel := by
      intro l0 hr
      subst hr
      apply hfresh
      simp [addChannels]
    obtain ⟨hok1, hndcs, hcsIn, hcsOut, hpost⟩ := applyRequest_step_facts b r hok hfreshStep
    have hfresh1 : ∀ c ∈ addChannels rest, ¬ chanIn (applyRequest b r).1 c := by
      intro c hc hin
      rcases hpost c hin with h | ⟨l0, hr, hceq⟩
      · exact hfresh c (hAC c hc) h
      · subst hr
        subst hceq
        have hnotin : ¬ l0.channel ∈ addChannels rest := by
          simp only [addChannels] at hnd
          exact (List.nodup_cons.1 hnd).1
        exact hnotin hc
    obtain ⟨ihnd, ihsub⟩ := ih (applyRequest b r).1 hok1 hfresh1 hndRest
    have hrun : (runRequests b (r :: rest)).2.2
        = (applyRequest b r).2.2.1 ++ (runRequests (applyRequest b r).1 rest).2.2 := rfl
    constructor
    · rw [hrun]
      refine List.Nodup.append hndcs ihnd ?_
      intro c hc hc2
      rcases ihsub c hc2 with h | h
      · exact hcsOut c hc h
      · exact hfresh c (hAC c h) (hcsIn c hc)
    · rw [hrun]
      intro c hc
      rcases List.mem_append.1 hc with hc | hc
      · exact Or.inl (hcsIn c hc)
      · rcases ihsub c hc with h | h
        · rcases hpost c h with h2 | ⟨l0, hr, hceq⟩
          · exact Or.inl h2
          · subst hr
            subst hceq
            exact Or.inr (by simp [addChannels])
        · exact Or.inr (hAC c h)

/-- C6: running any request queue, from any sane bus state, whose add
requests carry fresh pairwise-distinct channels (as every Go registration
does, via make(chan)), never closes the same delivery channel twice: the
full list of channel closes the dispatcher performs has no duplicates. So
double-unsubscribe and unsubscribe after a once delivery never re-close a
closed channel — the close(!) panic source in Go — and Unsubscribe never
panics. -/
theorem no_channel_closed_twice (b : BusState) (reqs : List Request)
    (hok : tableOk b)
    (hfresh : ∀ c ∈ addChannels reqs, ¬ chanIn b c)
    (hnd : (addChannels reqs).Nodup) :
    (runRequests b reqs).2.2.Nodup :=
  (runRequests_closes_nodup_aux reqs b hok hfresh hnd).1

theorem tableOk_startState (bi : BusInit) : tableOk (startState bi) := by
  constructor
  · intro t ls h
    exact Option.noConfusion h
  · intro t1 t2 ls1 ls2 c _ h1 _ _ _
    exact Option.noConfusion h1

theorem not_chanIn_startState (bi : BusInit) (c : Nat) : ¬ chanIn (startState bi) c := by
  rintro ⟨t, ls, l, h, _, _⟩
  exact Option.noConfusion h

/-- Fixture: a once listener on topic "t", channel 6. -/
def onceListenerC : Listener :=
  { topic := "t", once := true, channel := 6, callback := intCallback 106 }

/-- Fixture: a queue with a once delivery, a double unsubscribe, and an
unsubscribe after the once subscription already fired. -/
def doubleUnsubReqs : List Request :=
  [Request.add listenerA, Request.add onceListenerC,
    Request.send { topic := "t", data := [intVal 9] },
    Request.remove onceListenerC,
    Request.remove listenerA, Request.remove listenerA]

theorem no_channel_closed_twice_witness :
    (addChannels doubleUnsubReqs).Nodup
    ∧ (runRequests (startState (NewBus [])) doubleUnsubReqs).2.2.Nodup :=
  ⟨by decide, no_channel_closed_twice (startState (NewBus [])) doubleUnsubReqs
    (tableOk_startState _) (fun c _ => not_chanIn_startState _ c) (by decide)⟩

end Eventually

namespace Eventually

/-! ### C3 -/

/-- Dropping the once listeners of topic k removes channel c from the table
whenever c belonged to a once listener of k (with table sanity). -/
theorem keep_drop_not_chanIn (b : BusState) (k : String) (ls : List Listener) (c : Nat)
    (hok : tableOk b) (hm : b.topicListeners k = some ls)
    (l2 : Listener) (hmem : l2 ∈ ls) (hc : l2.channel = c) (honce : l2.once = true) :
    ¬ chanIn { b with topicListeners := mapSet b.topicListeners k (ls.filter (fun l => !l.once)) } c := by
  intro hin
  rcases (chanIn_mapSet b k _ c).1 hin with ⟨l3, hmem3, hc3⟩
    | ⟨t, ls2, l3, htk, hlook, hmem3, hc3⟩
  · have hl3ls : l3 ∈ ls := (List.mem_filter.1 hmem3).1
    have heq : l3 = l2 := List.inj_on_of_nodup_map (hok.1 k ls hm) hl3ls hmem
      (by rw [hc3, hc])
    have h3 : l3.once = false := by simpa using (List.mem_filter.1 hmem3).2
    rw [heq, honce] at h3
    exact Bool.noConfusion h3
  · exact hok.2 t k ls2 ls c htk hlook hm (List.mem_map.2 ⟨l3, hmem3, hc3⟩)
      (List.mem_map.2 ⟨l2, hmem, hc⟩)

/-- One broadcast step, seen from one channel c: a channel absent from the
table receives nothing; a channel bound to a once listener either receives
nothing and stays once-bound, or receives exactly one send and leaves the
table with its channel among this step's closes. -/
theorem broadcast_chan_count (b : BusState) (evnt : Event) (c : Nat) (hok : tableOk b) :
    (¬ chanIn b c → ((broadcast b evnt).2.1.map Prod.fst).count c = 0)
    ∧ (onceBound b c →
        ((((broadcast b evnt).2.1.map Prod.fst).count c = 0)
            ∧ onceBound (broadcast b evnt).1 c)
        ∨ ((((broadcast b evnt).2.1.map Prod.fst).count c = 1)
            ∧ ¬ chanIn (broadcast b evnt).1 c ∧ c ∈ (broadcast b evnt).2.2.1)) := by
  cases hv : verifyEvent b evnt with
  | some err =>
    simp only [broadcast, hv]
    exact ⟨fun _ => by simp, fun hb => Or.inl ⟨by simp, hb⟩⟩
  | none =>
    cases hm : b.topicListeners evnt.topic with
    | none =>
      simp only [broadcast, hv, hm]
      exact ⟨fun _ => by simp, fun hb => Or.inl ⟨by simp, hb⟩⟩
    | some ls =>
      simp only [broadcast, hv, hm, broadcastLoop_eq]
      have hfst : (ls.map (fun l => (l.channel, evnt.data))).map Prod.fst
          = ls.map Listener.channel := by
        rw [List.map_map]
        rfl
      constructor
      · intro hnin
        rw [hfst, List.count_eq_zero]
        intro hcmem
        obtain ⟨l2, hl2, hc2⟩ := List.mem_map.1 hcmem
        exact hnin ⟨evnt.topic, ls, l2, hm, hl2, hc2⟩
      · rintro ⟨t, ls2, l2, hlook, hmem, hceq, honce⟩
        by_cases htk : t = evnt.topic
        · subst htk
          obtain rfl : ls = ls2 := by
            rw [hm] at hlook
            exact Option.some.inj hlook
          right
          refine ⟨?_, ?_, ?_⟩
          · rw [hfst]
            exact List.count_eq_one_of_mem (hok.1 evnt.topic ls hm)
              (List.mem_map.2 ⟨l2, hmem, hceq⟩)
          · exact keep_drop_not_chanIn b evnt.topic ls c hok hm l2 hmem hceq honce
          · exact List.mem_map.2 ⟨l2, List.mem_filter.2 ⟨hmem, by simpa using honce⟩, hceq⟩
        · left
          constructor
          · rw [hfst, List.count_eq_zero]
            intro hcmem
            exact hok.2 t evnt.topic ls2 ls c htk hlook hm
              (List.mem_map.2 ⟨l2, hmem, hceq⟩) hcmem
          · refine ⟨t, ls2, l2, ?_, hmem, hceq, honce⟩
            show mapSet b.topicListeners evnt.topic (ls.filter (fun l => !l.once)) t
              = some ls2
            rw [mapSet_ne _ _ _ _ htk]
            exact hlook

/-- A channel absent from the table receives no sends across any run of
posts and stays absent. -/
theorem sends_not_in_table_aux (events : List Event) :
    ∀ b c, tableOk b → ¬ chanIn b c →
      (((runRequests b (events.map Request.send)).2.1.map Prod.fst).count c = 0)
      ∧ ¬ chanIn (runRequests b (events.map Request.send)).1 c := by
  induction events with
  | nil =>
    intro b c _ hnin
    exact ⟨by simp [runRequests], hnin⟩
  | cons e rest ih =>
    intro b c hok hnin
    have hstep0 : ((broadcast b e).2.1.map Prod.fst).count c = 0 :=
      (broadcast_chan_count b e c hok).1 hnin
    have hok1 : tableOk (broadcast b e).1 := (broadcast_facts b e hok).1
    have hnin1 : ¬ chanIn (broadcast b e).1 c := fun h =>
      hnin ((broadcast_facts b e hok).2.2.2.2 c h)
    obtain ⟨ih0, ihn⟩ := ih (broadcast b e).1 c hok1 hnin1
    have hrunS : (runRequests b ((e :: rest).map Request.send)).2.1
        = (broadcast b e).2.1
          ++ (runRequests (broadcast b e).1 (rest.map Request.send)).2.1 := rfl
    constructor
    · rw [hrunS, List.map_append, List.count_append, hstep0, ih0]
    · exact ihn

/-- A channel bound to a once listener receives at most one send across any
run of posts; once it has received one it is out of the table and closed. -/
theorem once_sends_aux (events : List Event) :
    ∀ b c, tableOk b → onceBound b c →
      ((((runRequests b (events.map Request.send)).2.1.map Prod.fst).count c = 0
          ∧ onceBound (runRequests b (events.map Request.send)).1 c)
        ∨ ((((runRequests b (events.map Request.send)).2.1.map Prod.fst).count c = 1)
            ∧ ¬ chanIn (runRequests b (events.map Request.send)).1 c
            ∧ c ∈ (runRequests b (events.map Request.send)).2.2)) := by
  induction events with
  | nil =>
    intro b c _ hb
    exact Or.inl ⟨by simp [runRequests], hb⟩
  | cons e rest ih =>
    intro b c hok hb
    have hok1 : tableOk (broadcast b e).1 := (broadcast_facts b e hok).1
    have hrunS : (runRequests b ((e :: rest).map Request.send)).2.1
        = (broadcast b e).2.1
          ++ (runRequests (broadcast b e).1 (rest.map Request.send)).2.1 := rfl
    have hrunC : (runRequests b ((e :: rest).map Request.send)).2.2
        = (broadcast b e).2.2.1
          ++ (runRequests (broadcast b e).1 (rest.map Request.send)).2.2 := rfl
    rcases (broadcast_chan_count b e c hok).2 hb with ⟨h0, hb1⟩ | ⟨h1, hgone, hclose⟩
    · rcases ih (broadcast b e).1 c hok1 hb1 with ⟨ih0, ihb⟩ | ⟨ih1, ihg, ihc⟩
      · left
        constructor
        · rw [hrunS, List.map_append, List.count_append, h0, ih0]
        · exact ihb
      · right
        refine ⟨?_, ihg, ?_⟩
        · rw [hrunS, List.map_append, List.count_append, h0, ih1]
        · rw [hrunC]
          exact List.mem_append.2 (Or.inr ihc)
    · obtain ⟨ih0, ihn⟩ := sends_not_in_table_aux rest (broadcast b e).1 c hok1 hgone
      right
      refine ⟨?_, ihn, ?_⟩
      · rw [hrunS, List.map_append, List.count_append, h1, ih0]
      · rw [hrunC]
        exact List.mem_append.2 (Or.inl hclose)

/-- C3: a once listener present in the table of a sane bus state has its
channel sent at most one delivery across any sequence of posts processed
by the dispatcher: over every prefix of the run its channel receives at
most one send, and whenever a prefix contains that send — in particular
the prefix ending at the very step that enqueued it — the listener is
absent from the table at the end of that prefix and its channel is among
the prefix's closes, so every later post finds no trace of it. -/
theorem once_listener_delivered_at_most_once (b : BusState) (l : Listener)
    (ls : List Listener) (events : List Event)
    (hok : tableOk b)
    (hmem : b.topicListeners l.topic = some ls)
    (hl : l ∈ ls) (honce : l.once = true) :
    ∀ n : Nat,
      (((runRequests b ((events.take n).map Request.send)).2.1.map Prod.fst).count
          l.channel ≤ 1)
      ∧ ((((runRequests b ((events.take n).map Request.send)).2.1.map Prod.fst).count
          l.channel = 1) →
          ¬ chanIn (runRequests b ((events.take n).map Request.send)).1 l.channel
          ∧ l.channel ∈ (runRequests b ((events.take n).map Request.send)).2.2) := by
  intro n
  have hb : onceBound b l.channel := ⟨l.topic, ls, l, hmem, hl, rfl, honce⟩
  rcases once_sends_aux (events.take n) b l.channel hok hb with ⟨h0, _⟩ | ⟨h1, hg, hc⟩
  · constructor
    · rw [h0]
      exact Nat.zero_le 1
    · intro hcontra
      rw [h0] at hcontra
      omega
  · constructor
    · exact h1.le
    · intro _
      exact ⟨hg, hc⟩

/-- Fixture: an unchecked bus whose topic "t" holds only the once listener. -/
def onceBus : BusState :=
  { eventMap := none,
    topicListeners := fun k => if k = "t" then some [onceListenerC] else none }

theorem tableOk_onceBus : tableOk onceBus := by
  constructor
  · intro t ls h
    by_cases ht : t = "t"
    · subst ht
      simp only [onceBus, if_pos rfl] at h
      obtain rfl : [onceListenerC] = ls := Option.some.inj h
      simp
    · simp only [onceBus, if_neg ht] at h
      exact Option.noConfusion h
  · intro t1 t2 ls1 ls2 c h12 h1 h2 _ _
    by_cases ht1 : t1 = "t"
    · by_cases ht2 : t2 = "t"
      · exact h12 (ht1.trans ht2.symm)
      · simp only [onceBus, if_neg ht2] at h2
        exact Option.noConfusion h2
    · simp only [onceBus, if_neg ht1] at h1
      exact Option.noConfusion h1

/-- Fixture: an event on the once listener's topic. -/
def onceEvent : Event := { topic := "t", data := [intVal 7] }

theorem once_listener_delivered_at_most_once_witness :
    ((runRequests onceBus ((List.take 2 [onceEvent, onceEvent]).map Request.send)).2.1.map
        Prod.fst).count 6 ≤ 1 :=
  (once_listener_delivered_at_most_once onceBus onceListenerC [onceListenerC]
    [onceEvent, onceEvent] tableOk_onceBus (by decide) (by decide) rfl 2).1

end Eventually
